import Mathlib

/-!
Verification of the Tsinghua-Daimler ingestor
(`src/vod_converter/tsinghua_daimler.py`).

The Python module is embedded shallowly:

* The filesystem and the two external capabilities (image metadata via PIL,
  JSON parsing of a label file into its `children` list) are abstracted as a
  record `FS` of partial functions; `none` models the unrecovered Python
  exception (`FileNotFoundError`, PIL error, `json` error, missing key).
* Python `float` values are modelled by `Rat`: every operation the module
  performs on box coordinates (comparison against an integer bound,
  pass-through storage, replacement by the integer `width-1`/`height-1` or
  `0`) is exact on IEEE doubles for the representable inputs involved, so
  rationals are a faithful model.
* Python string operations `str.strip`, `str.split('\n')` and the slice
  `s[:-n]` are modelled by structurally recursive functions over the
  character list of a `String` (`pyStrip`, `pySplitNl`, `pyDropLast`).
* Each Python loop is translated into a structurally recursive function that
  appends in the same order and aborts (returns `none`) on the first failing
  iteration, which is the observable behaviour of an uncaught exception.
-/

namespace TsinghuaDaimler

/-- Whitespace characters removed by Python `str.strip()` (ASCII range). -/
def isPyWhitespace (c : Char) : Bool :=
  c == ' ' || c == '\t' || c == '\n' || c == '\r' || c == '\x0b' || c == '\x0c'

/-- Python `str.strip()` on a character list: drop leading and trailing
whitespace. -/
def pyStripChars (l : List Char) : List Char :=
  ((l.dropWhile isPyWhitespace).reverse.dropWhile isPyWhitespace).reverse

/-- Python `str.strip()`. -/
def pyStrip (s : String) : String :=
  String.mk (pyStripChars s.data)

/-- Python `str.split('\n')` on a character list: splitting an empty string
yields `[[]]`, i.e. one empty field, never the empty list. -/
def pySplitLinesChars : List Char → List (List Char)
  | [] => [[]]
  | c :: rest =>
    let r := pySplitLinesChars rest
    if c == '\n' then [] :: r
    else
      match r with
      | [] => [[c]]
      | line :: more => (c :: line) :: more

/-- Python `str.split('\n')`. -/
def pySplitNl (s : String) : List String :=
  (pySplitLinesChars s.data).map String.mk

/-- Python slice `s[:-n]` for `n ≥ 1`: all but the last `n` characters,
empty when `n ≥ len(s)`. -/
def pyDropLast (s : String) (n : Nat) : String :=
  String.mk (s.data.take (s.data.length - n))

/-- One entry of the label JSON's `children` list, restricted to the fields
the ingestor reads (`identity`, `mincol`, `minrow`, `maxcol`, `maxrow`). -/
structure RawBox where
  identity : String
  mincol : Rat
  minrow : Rat
  maxcol : Rat
  maxrow : Rat
deriving Repr, DecidableEq

/-- A detection record as built by `_get_detections`. -/
structure DetectionRecord where
  label : String
  left : Rat
  right : Rat
  top : Rat
  bottom : Rat
deriving Repr, DecidableEq

/-- The `image` sub-dictionary of an ingested record. -/
structure ImageRecord where
  id : String
  path : String
  segmented_path : Option String
  width : Int
  height : Int
deriving Repr, DecidableEq

/-- One element of the list returned by `ingest`. -/
structure AnnotatedImage where
  image : ImageRecord
  detections : List DetectionRecord
deriving Repr, DecidableEq

/-- The ambient filesystem and external capabilities.  `isDir` models
`os.path.isdir`; `readFile` models `open(path).read()`; `imageDims` models
`_image_dimensions` (PIL); `labelFile` models `json.load(open(path))` followed
by the `['children']` access, already decoded into the consumed fields.
A `none` result models the corresponding uncaught Python exception. -/
structure FS where
  isDir : String → Bool
  readFile : String → Option String
  imageDims : String → Option (Int × Int)
  labelFile : String → Option (List RawBox)

/-- `self.sub_dirs` from `TsinghuaDaimlerIngestor.__init__`. -/
def sub_dirs : List String := ["train", "valid", "test"]

/-- `expected_dirs` from `TsinghuaDaimlerIngestor.validate`. -/
def expected_dirs : List String :=
  ["labelData/train/tsinghuaDaimlerDataset",
   "leftImg8bit/train/tsinghuaDaimlerDataset",
   "labelData/valid/tsinghuaDaimlerDataset",
   "leftImg8bit/valid/tsinghuaDaimlerDataset",
   "labelData/test/tsinghuaDaimlerDataset",
   "leftImg8bit/test/tsinghuaDaimlerDataset"]

/-- The `for subdir in expected_dirs` loop of `validate`. -/
def validateLoop (fs : FS) (path : String) : List String → Bool × Option String
  | [] => (true, none)
  | subdir :: rest =>
    if fs.isDir (path ++ "/" ++ subdir) then validateLoop fs path rest
    else (false, some ("Expected subdirectory " ++ subdir ++ " within " ++ path))

/-- `TsinghuaDaimlerIngestor.validate`. -/
def validate (fs : FS) (path : String) : Bool × Option String :=
  validateLoop fs path expected_dirs

/-- `TsinghuaDaimlerIngestor.get_image_path`. -/
def get_image_path (root sub_dir image_id image_ext : String) : String :=
  root ++ "/leftImg8bit/" ++ sub_dir ++ "/tsinghuaDaimlerDataset/" ++
    image_id ++ "_leftImg8bit." ++ image_ext

/-- `TsinghuaDaimlerIngestor.get_label_path`. -/
def get_label_path (root sub_dir image_id : String) : String :=
  root ++ "/labelData/" ++ sub_dir ++ "/tsinghuaDaimlerDataset/" ++
    image_id ++ "_labelData.json"

/-- The path `f"{root}/{sub_dir}.txt"` of a split index file. -/
def get_index_path (root sub_dir : String) : String :=
  root ++ "/" ++ sub_dir ++ ".txt"

/-- The literal suffix `'_leftImg8bit'` stripped from index lines. -/
def imgSuffix : String := "_leftImg8bit"

/-- The body of `_get_image_ids` for one index file:
`f.read().strip().split('\n')` followed by
`image_ids[i] = image_ids[i][:-len('_leftImg8bit')]` on every line. -/
def parseIndexContent (content : String) : List String :=
  (pySplitNl (pyStrip content)).map fun line => pyDropLast line imgSuffix.length

/-- The `for sub_dir in self.sub_dirs` loop of `_get_image_ids`. -/
def get_image_ids_loop (fs : FS) (root : String) :
    List String → Option (List (String × List String))
  | [] => some []
  | sub_dir :: rest =>
    match fs.readFile (get_index_path root sub_dir) with
    | none => none
    | some content =>
      (get_image_ids_loop fs root rest).map
        fun ret => (sub_dir, parseIndexContent content) :: ret

/-- `TsinghuaDaimlerIngestor._get_image_ids`. -/
def get_image_ids (fs : FS) (root : String) :
    Option (List (String × List String)) :=
  get_image_ids_loop fs root sub_dirs

/-- The per-box body of the `for box in f_json['children']` loop of
`_get_detections`: float conversion and the four one-sided clamps. -/
def clampDetection (image_width image_height : Int) (box : RawBox) :
    DetectionRecord :=
  let label := box.identity
  let min_col := box.mincol
  let max_col := box.maxcol
  let min_row := box.minrow
  let max_row := box.maxrow
  let min_col := if min_col < 0 then 0 else min_col
  let max_col :=
    if max_col ≥ (image_width : Rat) then ((image_width - 1 : Int) : Rat)
    else max_col
  let min_row := if min_row < 0 then 0 else min_row
  let max_row :=
    if max_row ≥ (image_height : Rat) then ((image_height - 1 : Int) : Rat)
    else max_row
  { label := label, left := min_col, right := max_col,
    top := min_row, bottom := max_row }

/-- `TsinghuaDaimlerIngestor._get_detections`: open and decode the label
file, then build one record per box, in `children` order, with no filtering
at this stage. -/
def get_detections (fs : FS) (detections_fpath : String)
    (image_width image_height : Int) : Option (List DetectionRecord) :=
  (fs.labelFile detections_fpath).map
    fun children => children.map (clampDetection image_width image_height)

/-- The degeneracy filter applied in `_get_image_detection`:
`det['left'] < det['right'] and det['top'] < det['bottom']`. -/
def keepDetection (det : DetectionRecord) : Bool :=
  decide (det.left < det.right ∧ det.top < det.bottom)

/-- `TsinghuaDaimlerIngestor._get_image_detection`. -/
def get_image_detection (fs : FS) (root sub_dir image_id image_ext : String) :
    Option AnnotatedImage :=
  let image_path := get_image_path root sub_dir image_id image_ext
  match fs.imageDims image_path with
  | none => none
  | some (image_width, image_height) =>
    let detections_fpath := get_label_path root sub_dir image_id
    match get_detections fs detections_fpath image_width image_height with
    | none => none
    | some detections =>
      some { image :=
               { id := image_id, path := image_path, segmented_path := none,
                 width := image_width, height := image_height },
             detections := detections.filter keepDetection }

/-- The inner `for image_id in image_ids` loop of `ingest`. -/
def ingestInner (fs : FS) (root sub_dir image_ext : String) :
    List String → Option (List AnnotatedImage)
  | [] => some []
  | image_id :: rest =>
    match get_image_detection fs root sub_dir image_id image_ext with
    | none => none
    | some r => (ingestInner fs root sub_dir image_ext rest).map fun rs => r :: rs

/-- The outer `for sub_dir, image_ids in sub_dir_with_image_ids` loop of
`ingest`. -/
def ingestLoop (fs : FS) (root image_ext : String) :
    List (String × List String) → Option (List AnnotatedImage)
  | [] => some []
  | (sub_dir, image_ids) :: rest =>
    match ingestInner fs root sub_dir image_ext image_ids with
    | none => none
    | some recs => (ingestLoop fs root image_ext rest).map fun more => recs ++ more

/-- `TsinghuaDaimlerIngestor.ingest`. -/
def ingest (fs : FS) (root : String) : Option (List AnnotatedImage) :=
  match get_image_ids fs root with
  | none => none
  | some sub_dir_with_image_ids => ingestLoop fs root "png" sub_dir_with_image_ids

/-- The clamping step as the specification words it: four one-sided
corrections applied to the converted coordinates, and nothing else.  Stated
separately from `clampDetection` (which is translated from the code) so that
the two can be compared. -/
def specClampDetection (imageWidth imageHeight : Int) (box : RawBox) :
    DetectionRecord :=
  { label := box.identity
    left := if box.mincol < 0 then 0 else box.mincol
    right :=
      if box.maxcol ≥ (imageWidth : Rat) then ((imageWidth - 1 : Int) : Rat)
      else box.maxcol
    top := if box.minrow < 0 then 0 else box.minrow
    bottom :=
      if box.maxrow ≥ (imageHeight : Rat) then ((imageHeight - 1 : Int) : Rat)
      else box.maxrow }

/-! ### Concrete test fixtures

A small filesystem with three index files listing the identifiers
`a, b / c / d`, every image 40×100, and every label file holding one
in-range-after-clamping box (`demoBox`, the spec's worked example) and one
box that becomes degenerate after clamping (`demoDegBox`, the spec's
dropped example `mincol=39, maxcol=40` against width 40). -/

/-- The spec's worked example box: `mincol=-5, minrow=10, maxcol=50,
maxrow=60`. -/
def demoBox : RawBox :=
  { identity := "pedestrian", mincol := -5, minrow := 10,
    maxcol := 50, maxrow := 60 }

/-- The spec's dropped example box: `mincol=39, maxcol=40` against width 40
clamps to `left = right = 39`. -/
def demoDegBox : RawBox :=
  { identity := "cyclist", mincol := 39, minrow := 0,
    maxcol := 40, maxrow := 50 }

/-- The record `demoBox` clamps to against a 40×100 image. -/
def demoDet : DetectionRecord :=
  { label := "pedestrian", left := 0, right := 39, top := 10, bottom := 60 }

def demoFS : FS :=
  { isDir := fun _ => true
    readFile := fun p =>
      if p = "r/train.txt" then some "a_leftImg8bit\nb_leftImg8bit"
      else if p = "r/valid.txt" then some "c_leftImg8bit"
      else if p = "r/test.txt" then some "d_leftImg8bit"
      else none
    imageDims := fun _ => some (40, 100)
    labelFile := fun _ => some [demoBox, demoDegBox] }

/-- The split/identifier association `_get_image_ids` produces on `demoFS`. -/
def demoIds : List (String × List String) :=
  [("train", ["a", "b"]), ("valid", ["c"]), ("test", ["d"])]

/-- The record `ingest` produces on `demoFS` for one split/identifier pair:
`demoDegBox` has been dropped, `demoBox` survives as `demoDet`. -/
def demoRec (sd id : String) : AnnotatedImage :=
  { image := { id := id, path := get_image_path "r" sd id "png",
               segmented_path := none, width := 40, height := 100 },
    detections := [demoDet] }

def demoRes : List AnnotatedImage :=
  [demoRec "train" "a", demoRec "train" "b", demoRec "valid" "c",
   demoRec "test" "d"]

/-- `demoFS` with every label file missing/unreadable. -/
def demoMissFS : FS :=
  { demoFS with labelFile := fun _ => none }

/-- The rational 79/2 = 39.5, an IEEE-representable non-integer
coordinate. -/
def half79 : Rat := ⟨79, 2, by decide, by decide⟩

/-- A box whose `maxcol` is fractional and lies strictly between
`width - 1` and `width`: it needs no clamping yet exceeds `width - 1`. -/
def demo9Box : RawBox :=
  { identity := "pedestrian", mincol := 10, minrow := 10,
    maxcol := half79, maxrow := 60 }

def demo9FS : FS :=
  { demoFS with labelFile := fun _ => some [demo9Box] }

def demo9Det : DetectionRecord :=
  { label := "pedestrian", left := 10, right := half79, top := 10,
    bottom := 60 }

def demo9Rec (sd id : String) : AnnotatedImage :=
  { image := { id := id, path := get_image_path "r" sd id "png",
               segmented_path := none, width := 40, height := 100 },
    detections := [demo9Det] }

def demo9Res : List AnnotatedImage :=
  [demo9Rec "train" "a", demo9Rec "train" "b", demo9Rec "valid" "c",
   demo9Rec "test" "d"]

/-- A filesystem whose `train.txt` is whitespace only, and whose label files
are all empty. -/
def demo10FS : FS :=
  { isDir := fun _ => true
    readFile := fun p =>
      if p = "r/train.txt" then some " \n "
      else if p = "r/valid.txt" then some "x_leftImg8bit"
      else if p = "r/test.txt" then some "x_leftImg8bit"
      else none
    imageDims := fun _ => some (40, 100)
    labelFile := fun _ => some [] }

def demo10Rec (sd id : String) : AnnotatedImage :=
  { image := { id := id, path := get_image_path "r" sd id "png",
               segmented_path := none, width := 40, height := 100 },
    detections := [] }

def demo10Res : List AnnotatedImage :=
  [demo10Rec "train" "", demo10Rec "valid" "x", demo10Rec "test" "x"]

/-- The split/identifier association `_get_image_ids` produces on
`demo10FS`: the whitespace-only train index yields the single empty
identifier. -/
def demo10Ids : List (String × List String) :=
  [("train", [""]), ("valid", ["x"]), ("test", ["x"])]

/-- A box needing no clamping at all, for the round-trip claim. -/
def demo7Box : RawBox :=
  { identity := "wheelchairuser", mincol := 1, minrow := 2,
    maxcol := 3, maxrow := 4 }

/-! ### Helper lemmas -/

/-- The code's clamping loop body agrees with the spec's wording of it. -/
theorem clampDetection_eq_spec (w ht : Int) (box : RawBox) :
    clampDetection w ht box = specClampDetection w ht box := rfl

theorem validateLoop_eq_find (fs : FS) (path : String) (dirs : List String) :
    validateLoop fs path dirs =
      match dirs.find? (fun d => !fs.isDir (path ++ "/" ++ d)) with
      | none => (true, none)
      | some d =>
        (false, some ("Expected subdirectory " ++ d ++ " within " ++ path)) := by
  induction dirs with
  | nil => rfl
  | cons d rest ih =>
    cases hd : fs.isDir (path ++ "/" ++ d) with
    | false => simp [validateLoop, List.find?_cons, hd]
    | true => simp [validateLoop, List.find?_cons, hd, ih]

theorem get_image_ids_loop_fst (fs : FS) (root : String) :
    ∀ (sds : List String) (l : List (String × List String)),
      get_image_ids_loop fs root sds = some l → l.map Prod.fst = sds := by
  intro sds
  induction sds with
  | nil =>
    intro l h
    simp only [get_image_ids_loop, Option.some_inj] at h
    simp [← h]
  | cons sd rest ih =>
    intro l h
    simp only [get_image_ids_loop] at h
    cases hr : fs.readFile (get_index_path root sd) with
    | none => rw [hr] at h; exact absurd h (by simp)
    | some content =>
      rw [hr] at h
      obtain ⟨ret, hret, hl⟩ := Option.map_eq_some'.mp h
      subst hl
      simp [ih ret hret]

theorem get_image_ids_loop_read (fs : FS) (root : String) :
    ∀ (sds : List String) (l : List (String × List String)),
      get_image_ids_loop fs root sds = some l →
      ∀ sd ∈ sds, ∃ c, fs.readFile (get_index_path root sd) = some c := by
  intro sds
  induction sds with
  | nil => intro l _ sd hsd; exact absurd hsd (by simp)
  | cons sd0 rest ih =>
    intro l h sd hsd
    simp only [get_image_ids_loop] at h
    cases hr : fs.readFile (get_index_path root sd0) with
    | none => rw [hr] at h; exact absurd h (by simp)
    | some content =>
      rw [hr] at h
      obtain ⟨ret, hret, _⟩ := Option.map_eq_some'.mp h
      rcases List.mem_cons.mp hsd with hsd | hsd
      · exact ⟨content, hsd ▸ hr⟩
      · exact ih ret hret sd hsd

theorem get_image_ids_loop_content (fs : FS) (root : String) :
    ∀ (sds : List String) (l : List (String × List String)),
      get_image_ids_loop fs root sds = some l →
      ∀ (p : String × List String), p ∈ l →
        ∃ c, fs.readFile (get_index_path root p.1) = some c ∧
          p.2 = parseIndexContent c := by
  intro sds
  induction sds with
  | nil =>
    intro l h p hp
    simp only [get_image_ids_loop, Option.some_inj] at h
    subst h
    exact absurd hp (by simp)
  | cons sd0 rest ih =>
    intro l h p hp
    simp only [get_image_ids_loop] at h
    cases hr : fs.readFile (get_index_path root sd0) with
    | none => rw [hr] at h; exact absurd h (by simp)
    | some content =>
      rw [hr] at h
      obtain ⟨ret, hret, hl⟩ := Option.map_eq_some'.mp h
      subst hl
      rcases List.mem_cons.mp hp with hp | hp
      · exact ⟨content, by simp [hp, hr]⟩
      · exact ih ret hret p hp

theorem get_image_detection_inv (fs : FS) (root sd id ext : String)
    (rec : AnnotatedImage)
    (h : get_image_detection fs root sd id ext = some rec) :
    ∃ w ht children,
      fs.imageDims (get_image_path root sd id ext) = some (w, ht) ∧
      fs.labelFile (get_label_path root sd id) = some children ∧
      rec = { image := { id := id, path := get_image_path root sd id ext,
                         segmented_path := none, width := w, height := ht },
              detections :=
                (children.map (clampDetection w ht)).filter keepDetection } := by
  cases hd : fs.imageDims (get_image_path root sd id ext) with
  | none => simp [get_image_detection, hd] at h
  | some p =>
    obtain ⟨w, ht⟩ := p
    cases hl : fs.labelFile (get_label_path root sd id) with
    | none => simp [get_image_detection, get_detections, hd, hl] at h
    | some children =>
      simp only [get_image_detection, get_detections, hd, hl, Option.map_some',
        Option.some_inj] at h
      exact ⟨w, ht, children, rfl, rfl, h.symm⟩

theorem ingestInner_shape (fs : FS) (root sd ext : String) :
    ∀ (ids : List String) (recs : List AnnotatedImage),
      ingestInner fs root sd ext ids = some recs →
      recs.map (fun r => r.image.id) = ids ∧
      recs.map (fun r => r.image.path) =
        ids.map fun id => get_image_path root sd id ext := by
  intro ids
  induction ids with
  | nil =>
    intro recs h
    simp only [ingestInner, Option.some_inj] at h
    simp [← h]
  | cons id rest ih =>
    intro recs h
    simp only [ingestInner] at h
    cases hg : get_image_detection fs root sd id ext with
    | none => rw [hg] at h; exact absurd h (by simp)
    | some r =>
      rw [hg] at h
      obtain ⟨rs, hrs, hrecs⟩ := Option.map_eq_some'.mp h
      subst hrecs
      obtain ⟨hids, hpaths⟩ := ih rs hrs
      obtain ⟨w, ht, children, _, _, hr⟩ :=
        get_image_detection_inv fs root sd id ext r hg
      subst hr
      simp [hids, hpaths]

theorem ingestInner_mem (fs : FS) (root sd ext : String) :
    ∀ (ids : List String) (recs : List AnnotatedImage),
      ingestInner fs root sd ext ids = some recs →
      ∀ rec ∈ recs, ∃ id ∈ ids,
        get_image_detection fs root sd id ext = some rec := by
  intro ids
  induction ids with
  | nil =>
    intro recs h rec hrec
    simp only [ingestInner, Option.some_inj] at h
    subst h
    exact absurd hrec (by simp)
  | cons id rest ih =>
    intro recs h rec hrec
    simp only [ingestInner] at h
    cases hg : get_image_detection fs root sd id ext with
    | none => rw [hg] at h; exact absurd h (by simp)
    | some r =>
      rw [hg] at h
      obtain ⟨rs, hrs, hrecs⟩ := Option.map_eq_some'.mp h
      subst hrecs
      rcases List.mem_cons.mp hrec with hrec | hrec
      · exact ⟨id, by simp, hrec ▸ hg⟩
      · obtain ⟨id', hid', hg'⟩ := ih rs hrs rec hrec
        exact ⟨id', by simp [hid'], hg'⟩

theorem ingestInner_success (fs : FS) (root sd ext : String) :
    ∀ (ids : List String) (recs : List AnnotatedImage),
      ingestInner fs root sd ext ids = some recs →
      ∀ id ∈ ids, ∃ rec,
        get_image_detection fs root sd id ext = some rec := by
  intro ids
  induction ids with
  | nil => intro recs _ id hid; exact absurd hid (by simp)
  | cons id0 rest ih =>
    intro recs h id hid
    simp only [ingestInner] at h
    cases hg : get_image_detection fs root sd id0 ext with
    | none => rw [hg] at h; exact absurd h (by simp)
    | some r =>
      rw [hg] at h
      obtain ⟨rs, hrs, _⟩ := Option.map_eq_some'.mp h
      rcases List.mem_cons.mp hid with hid | hid
      · exact ⟨r, hid ▸ hg⟩
      · exact ih rs hrs id hid

theorem ingestLoop_shape (fs : FS) (root ext : String) :
    ∀ (l : List (String × List String)) (res : List AnnotatedImage),
      ingestLoop fs root ext l = some res →
      res.map (fun r => r.image.id) = (l.map Prod.snd).flatten ∧
      res.map (fun r => r.image.path) =
        (l.map fun p => p.2.map fun id => get_image_path root p.1 id ext).flatten := by
  intro l
  induction l with
  | nil =>
    intro res h
    simp only [ingestLoop, Option.some_inj] at h
    simp [← h]
  | cons p rest ih =>
    intro res h
    obtain ⟨sd, ids⟩ := p
    simp only [ingestLoop] at h
    cases hg : ingestInner fs root sd ext ids with
    | none => rw [hg] at h; exact absurd h (by simp)
    | some recs =>
      rw [hg] at h
      obtain ⟨more, hmore, hres⟩ := Option.map_eq_some'.mp h
      subst hres
      obtain ⟨hids, hpaths⟩ := ingestInner_shape fs root sd ext ids recs hg
      obtain ⟨hids', hpaths'⟩ := ih more hmore
      simp [hids, hpaths, hids', hpaths']

theorem ingestLoop_mem (fs : FS) (root ext : String) :
    ∀ (l : List (String × List String)) (res : List AnnotatedImage),
      ingestLoop fs root ext l = some res →
      ∀ rec ∈ res, ∃ sd ids, (sd, ids) ∈ l ∧ ∃ id ∈ ids,
        get_image_detection fs root sd id ext = some rec := by
  intro l
  induction l with
  | nil =>
    intro res h rec hrec
    simp only [ingestLoop, Option.some_inj] at h
    subst h
    exact absurd hrec (by simp)
  | cons p rest ih =>
    intro res h rec hrec
    obtain ⟨sd, ids⟩ := p
    simp only [ingestLoop] at h
    cases hg : ingestInner fs root sd ext ids with
    | none => rw [hg] at h; exact absurd h (by simp)
    | some recs =>
      rw [hg] at h
      obtain ⟨more, hmore, hres⟩ := Option.map_eq_some'.mp h
      subst hres
      rcases List.mem_append.mp hrec with hrec | hrec
      · obtain ⟨id, hid, hgid⟩ := ingestInner_mem fs root sd ext ids recs hg rec hrec
        exact ⟨sd, ids, by simp, id, hid, hgid⟩
      · obtain ⟨sd', ids', hmem, hrest⟩ := ih more hmore rec hrec
        exact ⟨sd', ids', by simp [hmem], hrest⟩

theorem ingestLoop_success (fs : FS) (root ext : String) :
    ∀ (l : List (String × List String)) (res : List AnnotatedImage),
      ingestLoop fs root ext l = some res →
      ∀ sd ids, (sd, ids) ∈ l → ∀ id ∈ ids, ∃ rec,
        get_image_detection fs root sd id ext = some rec := by
  intro l
  induction l with
  | nil =>
    intro res _ sd ids hmem
    exact absurd hmem (by simp)
  | cons p rest ih =>
    intro res h sd ids hmem id hid
    obtain ⟨sd0, ids0⟩ := p
    simp only [ingestLoop] at h
    cases hg : ingestInner fs root sd0 ext ids0 with
    | none => rw [hg] at h; exact absurd h (by simp)
    | some recs =>
      rw [hg] at h
      obtain ⟨more, hmore, _⟩ := Option.map_eq_some'.mp h
      rcases List.mem_cons.mp hmem with hmem | hmem
      · rw [Prod.mk.injEq] at hmem
        obtain ⟨rfl, rfl⟩ := hmem
        exact ingestInner_success fs root sd ext ids recs hg id hid
      · exact ih more hmore sd ids hmem id hid

theorem ingest_inv (fs : FS) (root : String) (res : List AnnotatedImage)
    (h : ingest fs root = some res) :
    ∃ l, get_image_ids fs root = some l ∧
      ingestLoop fs root "png" l = some res := by
  cases hi : get_image_ids fs root with
  | none => simp [ingest, hi] at h
  | some l =>
    refine ⟨l, rfl, ?_⟩
    simpa [ingest, hi] using h

theorem ingest_mem_inv (fs : FS) (root : String) (res : List AnnotatedImage)
    (h : ingest fs root = some res) (rec : AnnotatedImage) (hrec : rec ∈ res) :
    ∃ sd id, sd ∈ sub_dirs ∧
      get_image_detection fs root sd id "png" = some rec := by
  obtain ⟨l, hl, hloop⟩ := ingest_inv fs root res h
  obtain ⟨sd, ids, hmem, id, _, hgid⟩ :=
    ingestLoop_mem fs root "png" l res hloop rec hrec
  refine ⟨sd, id, ?_, hgid⟩
  have hfst := get_image_ids_loop_fst fs root sub_dirs l hl
  have : sd ∈ l.map Prod.fst := List.mem_map.mpr ⟨(sd, ids), hmem, rfl⟩
  rwa [hfst] at this

/-- After the four one-sided clamps, `left` and `top` are nonnegative and
`right` and `bottom` are strictly below the width and height. -/
theorem clampDetection_bounds (w ht : Int) (box : RawBox) :
    0 ≤ (clampDetection w ht box).left ∧
    (clampDetection w ht box).right < (w : Rat) ∧
    0 ≤ (clampDetection w ht box).top ∧
    (clampDetection w ht box).bottom < (ht : Rat) := by
  simp only [clampDetection]
  refine ⟨?_, ?_, ?_, ?_⟩ <;> split <;>
    first
      | exact le_of_lt (by assumption)
      | exact le_of_not_lt (by assumption)
      | exact lt_of_not_le (by assumption)
      | (push_cast; linarith)

/-! ### Claims -/

/-- C1: every detection record present in the output of `ingest` satisfies
`left < right` and `top < bottom`; after clamping, any box with
`left ≥ right` or `top ≥ bottom` has been dropped from the record's
`detections` list and is never surfaced. -/
theorem ingest_detections_nondegenerate (fs : FS) (root : String)
    (res : List AnnotatedImage) (hres : ingest fs root = some res)
    (rec : AnnotatedImage) (hrec : rec ∈ res)
    (det : DetectionRecord) (hdet : det ∈ rec.detections) :
    det.left < det.right ∧ det.top < det.bottom := by
  obtain ⟨sd, id, _, hgid⟩ := ingest_mem_inv fs root res hres rec hrec
  obtain ⟨w, ht, children, _, _, hrec'⟩ :=
    get_image_detection_inv fs root sd id "png" rec hgid
  subst hrec'
  have hkeep : keepDetection det = true := (List.mem_filter.mp hdet).2
  exact of_decide_eq_true hkeep

/-- C1 witness: on `demoFS` (whose label files hold the worked example box
and the degenerate `mincol=39, maxcol=40` box against width 40) `ingest`
returns exactly `demoRes`, in which the degenerate box is absent and the
surviving detection is non-degenerate. -/
theorem ingest_detections_nondegenerate_witness :
    ingest demoFS "r" = some demoRes ∧
    demoDet.left < demoDet.right ∧ demoDet.top < demoDet.bottom :=
  ⟨by decide,
   ingest_detections_nondegenerate demoFS "r" demoRes (by decide)
     (demoRec "train" "a") (by decide) demoDet (by decide)⟩

/-- C2: `_get_detections` converts each box's coordinates and applies
exactly the spec's four one-sided clamps and no other correction; on the box
`{identity:"pedestrian", mincol:-5, minrow:10, maxcol:50, maxrow:60}`
against a 40×100 image the result is `{left:0, top:10, right:39, bottom:60}`
and it survives the degenerate-box filter. -/
theorem get_detections_clamps (fs : FS) (fpath : String) (w ht : Int)
    (children : List RawBox) (hl : fs.labelFile fpath = some children) :
    get_detections fs fpath w ht =
      some (children.map (specClampDetection w ht)) ∧
    clampDetection 40 100 demoBox = demoDet ∧
    keepDetection demoDet = true := by
  refine ⟨?_, by decide, by decide⟩
  simp [get_detections, hl, clampDetection_eq_spec]

/-- C2 witness: the clamp theorem applied to `demoFS`'s label file. -/
theorem get_detections_clamps_witness :
    demoFS.labelFile "r/labelData/train/tsinghuaDaimlerDataset/a_labelData.json" =
      some [demoBox, demoDegBox] ∧
    (get_detections demoFS
        "r/labelData/train/tsinghuaDaimlerDataset/a_labelData.json" 40 100 =
      some ([demoBox, demoDegBox].map (specClampDetection 40 100)) ∧
     clampDetection 40 100 demoBox = demoDet ∧
     keepDetection demoDet = true) :=
  ⟨rfl,
   get_detections_clamps demoFS
     "r/labelData/train/tsinghuaDaimlerDataset/a_labelData.json" 40 100
     [demoBox, demoDegBox] rfl⟩

/-- C3: when the three index files list `N`, `M`, `K` identifiers, `ingest`
returns exactly `N+M+K` records, one per (split, identifier) pair, ordered
by split order `train, valid, test` and then by index-file line order within
each split. -/
theorem ingest_count_and_order (fs : FS) (root : String)
    (l : List (String × List String)) (res : List AnnotatedImage)
    (hids : get_image_ids fs root = some l)
    (hres : ingest fs root = some res) :
    l.map Prod.fst = ["train", "valid", "test"] ∧
    res.map (fun r => r.image.id) = (l.map Prod.snd).flatten ∧
    res.length = ((l.map Prod.snd).map List.length).sum := by
  obtain ⟨l', hl', hloop⟩ := ingest_inv fs root res hres
  rw [hids] at hl'
  obtain rfl := Option.some_inj.mp hl'
  have hshape := (ingestLoop_shape fs root "png" l res hloop).1
  refine ⟨get_image_ids_loop_fst fs root sub_dirs l hids, hshape, ?_⟩
  calc res.length
      = (res.map fun r => r.image.id).length := (List.length_map res _).symm
    _ = (l.map Prod.snd).flatten.length := by rw [hshape]
    _ = ((l.map Prod.snd).map List.length).sum := List.length_flatten _

/-- C3 witness: on `demoFS`, splits list 2, 1, 1 identifiers and `ingest`
returns 4 records in split then line order. -/
theorem ingest_count_and_order_witness :
    get_image_ids demoFS "r" = some demoIds ∧
    ingest demoFS "r" = some demoRes ∧
    (demoIds.map Prod.fst = ["train", "valid", "test"] ∧
     demoRes.map (fun r => r.image.id) = (demoIds.map Prod.snd).flatten ∧
     demoRes.length = ((demoIds.map Prod.snd).map List.length).sum) :=
  ⟨by decide, by decide,
   ingest_count_and_order demoFS "r" demoIds demoRes (by decide) (by decide)⟩

/-- C4: `validate` returns `(true, none)` exactly when all six required
subdirectories exist under the root; otherwise it returns `false` with a
message naming the first missing subdirectory in the fixed check order,
short-circuiting without aggregating the rest. -/
theorem validate_first_missing_dir (fs : FS) (path : String) :
    (validate fs path =
      match expected_dirs.find? (fun d => !fs.isDir (path ++ "/" ++ d)) with
      | none => (true, none)
      | some d =>
        (false, some ("Expected subdirectory " ++ d ++ " within " ++ path))) ∧
    (validate fs path = (true, none) ↔
      ∀ d ∈ expected_dirs, fs.isDir (path ++ "/" ++ d) = true) := by
  refine ⟨validateLoop_eq_find fs path expected_dirs, ?_⟩
  rw [validate, validateLoop_eq_find fs path expected_dirs]
  cases hf : expected_dirs.find? (fun d => !fs.isDir (path ++ "/" ++ d)) with
  | none =>
    simp only []
    constructor
    · intro _ d hd
      have := List.find?_eq_none.mp hf d hd
      simpa using this
    · intro _
      trivial
  | some d =>
    simp only []
    constructor
    · intro h
      exact absurd h (by simp)
    · intro hall
      have hd := List.mem_of_find?_eq_some hf
      have hpred := List.find?_some hf
      have := hall d hd
      simp [this] at hpred

/-- C5: `_get_image_ids` reads `{root}/{split}.txt` for the three fixed
splits in order, strips the whole file, splits on newline, and removes the
last `len('_leftImg8bit')` characters of every line unconditionally — so
`["foo_leftImg8bit", "bar_leftImg8bit"]` yields `["foo", "bar"]`, and a
13-character line not ending in the suffix is silently truncated to its
first character. -/
theorem get_image_ids_strips_suffix (fs : FS) (root : String)
    (ct cv ce : String)
    (h1 : fs.readFile (get_index_path root "train") = some ct)
    (h2 : fs.readFile (get_index_path root "valid") = some cv)
    (h3 : fs.readFile (get_index_path root "test") = some ce) :
    get_image_ids fs root =
      some [("train", parseIndexContent ct), ("valid", parseIndexContent cv),
            ("test", parseIndexContent ce)] ∧
    parseIndexContent "foo_leftImg8bit\nbar_leftImg8bit" = ["foo", "bar"] ∧
    (∀ content, parseIndexContent content =
      (pySplitNl (pyStrip content)).map fun line =>
        pyDropLast line imgSuffix.length) ∧
    parseIndexContent "hello12345678" = ["h"] := by
  refine ⟨?_, by decide, fun content => rfl, by decide⟩
  simp [get_image_ids, sub_dirs, get_image_ids_loop, h1, h2, h3]

/-- C5 witness: the index-loading theorem applied to `demoFS`. -/
theorem get_image_ids_strips_suffix_witness :
    demoFS.readFile (get_index_path "r" "train") =
      some "a_leftImg8bit\nb_leftImg8bit" ∧
    get_image_ids demoFS "r" =
      some [("train", parseIndexContent "a_leftImg8bit\nb_leftImg8bit"),
            ("valid", parseIndexContent "c_leftImg8bit"),
            ("test", parseIndexContent "d_leftImg8bit")] :=
  ⟨by decide,
   (get_image_ids_strips_suffix demoFS "r" "a_leftImg8bit\nb_leftImg8bit"
     "c_leftImg8bit" "d_leftImg8bit" (by decide) (by decide) (by decide)).1⟩

/-- C6: a missing index file, or a missing image or label file for any
listed identifier, makes the whole `ingest` call fail: the result is `none`,
never a partial list and never a skipped identifier. -/
theorem ingest_fails_on_missing_file (fs : FS) (root : String) :
    ((∃ sd ∈ sub_dirs, fs.readFile (get_index_path root sd) = none) →
      ingest fs root = none) ∧
    (∀ l, get_image_ids fs root = some l →
      ∀ sd ids, (sd, ids) ∈ l → ∀ id ∈ ids,
        (fs.imageDims (get_image_path root sd id "png") = none ∨
         fs.labelFile (get_label_path root sd id) = none) →
        ingest fs root = none) := by
  constructor
  · rintro ⟨sd, hsd, hnone⟩
    cases hi : get_image_ids fs root with
    | none => simp [ingest, hi]
    | some l =>
      obtain ⟨c, hc⟩ := get_image_ids_loop_read fs root sub_dirs l hi sd hsd
      rw [hc] at hnone
      exact absurd hnone (by simp)
  · intro l hl sd ids hmem id hid hfail
    cases hi : ingest fs root with
    | none => rfl
    | some res =>
      obtain ⟨l', hl', hloop⟩ := ingest_inv fs root res hi
      rw [hl] at hl'
      obtain rfl := Option.some_inj.mp hl'
      obtain ⟨rec, hgid⟩ :=
        ingestLoop_success fs root "png" l res hloop sd ids hmem id hid
      obtain ⟨w, ht, children, hdims, hlabel, _⟩ :=
        get_image_detection_inv fs root sd id "png" rec hgid
      rcases hfail with hfail | hfail
      · rw [hdims] at hfail
        exact absurd hfail (by simp)
      · rw [hlabel] at hfail
        exact absurd hfail (by simp)

/-- C6 witness: on `demoMissFS`, whose label files are all missing while its
train index lists `a`, `ingest` returns `none`. -/
theorem ingest_fails_on_missing_file_witness :
    ingest demoMissFS "r" = none :=
  (ingest_fails_on_missing_file demoMissFS "r").2 demoIds (by decide)
    "train" ["a", "b"] (by decide) "a" (by decide) (Or.inr (by decide))

/-- C7: a box whose coordinates need no clamping (`mincol ≥ 0`,
`maxcol < width`, `minrow ≥ 0`, `maxrow < height`) passes through with
`left/right/top/bottom` numerically identical to the source
`mincol/maxcol/minrow/maxrow` and with the `identity` string verbatim as its
label. -/
theorem clamp_roundtrip_identity (box : RawBox) (w ht : Int)
    (h1 : 0 ≤ box.mincol) (h2 : box.maxcol < (w : Rat))
    (h3 : 0 ≤ box.minrow) (h4 : box.maxrow < (ht : Rat)) :
    clampDetection w ht box =
      { label := box.identity, left := box.mincol, right := box.maxcol,
        top := box.minrow, bottom := box.maxrow } := by
  simp only [clampDetection]
  rw [if_neg (not_lt.mpr h1), if_neg (not_le.mpr h2),
      if_neg (not_lt.mpr h3), if_neg (not_le.mpr h4)]

/-- C7 witness: the in-range box `demo7Box` against a 40×100 image passes
through unchanged. -/
theorem clamp_roundtrip_identity_witness :
    clampDetection 40 100 demo7Box =
      { label := "wheelchairuser", left := 1, right := 3, top := 2,
        bottom := 4 } :=
  clamp_roundtrip_identity demo7Box 40 100 (by decide) (by decide)
    (by decide) (by decide)

/-- C8: every record produced by `ingest` has an image path equal to the
pure construction
`{root}/leftImg8bit/{split}/tsinghuaDaimlerDataset/{imageId}_leftImg8bit.{ext}`
with the extension fixed to `"png"`, independent of the filesystem. -/
theorem ingest_image_path_pure (fs : FS) (root : String)
    (l : List (String × List String)) (res : List AnnotatedImage)
    (hids : get_image_ids fs root = some l)
    (hres : ingest fs root = some res) :
    res.map (fun r => r.image.path) =
      (l.map fun p => p.2.map fun id =>
        root ++ "/leftImg8bit/" ++ p.1 ++ "/tsinghuaDaimlerDataset/" ++
          id ++ "_leftImg8bit." ++ "png").flatten := by
  obtain ⟨l', hl', hloop⟩ := ingest_inv fs root res hres
  rw [hids] at hl'
  obtain rfl := Option.some_inj.mp hl'
  exact (ingestLoop_shape fs root "png" l res hloop).2

/-- C8 witness: the path theorem evaluated on `demoFS`. -/
theorem ingest_image_path_pure_witness :
    ingest demoFS "r" = some demoRes ∧
    demoRes.map (fun r => r.image.path) =
      (demoIds.map fun p => p.2.map fun id =>
        "r" ++ "/leftImg8bit/" ++ p.1 ++ "/tsinghuaDaimlerDataset/" ++
          id ++ "_leftImg8bit." ++ "png").flatten :=
  ⟨by decide,
   ingest_image_path_pure demoFS "r" demoIds demoRes (by decide) (by decide)⟩

/-- C9 counterexample: the claimed invariant `right ≤ width - 1` fails on a
fractional coordinate.  On `demo9FS` the label box has `maxcol = 39.5`
against width 40: it needs no clamping, survives the filter into the output
record of `ingest`, and its `right` exceeds `width - 1 = 39`. -/
theorem pixel_range_claim_cex :
    ingest demo9FS "r" = some demo9Res ∧
    demo9Rec "train" "a" ∈ demo9Res ∧
    demo9Det ∈ (demo9Rec "train" "a").detections ∧
    (demo9Rec "train" "a").image.width = 40 ∧
    ¬(demo9Det.right ≤
        (((demo9Rec "train" "a").image.width - 1 : Int) : Rat)) := by
  exact ⟨by decide, by decide, by decide, by decide, by decide⟩

/-- C9 (amended): every detection surviving into an output record lies
within the image in the strict sense `0 ≤ left < right < width` and
`0 ≤ top < bottom < height`; the bound `width - 1` of the original claim
holds only for integral coordinates, since a fractional `right` strictly
between `width - 1` and `width` is not clamped. -/
theorem ingest_detections_within_bounds (fs : FS) (root : String)
    (res : List AnnotatedImage) (hres : ingest fs root = some res)
    (rec : AnnotatedImage) (hrec : rec ∈ res)
    (det : DetectionRecord) (hdet : det ∈ rec.detections) :
    0 ≤ det.left ∧ det.left < det.right ∧
    det.right < (rec.image.width : Rat) ∧
    0 ≤ det.top ∧ det.top < det.bottom ∧
    det.bottom < (rec.image.height : Rat) := by
  obtain ⟨sd, id, _, hgid⟩ := ingest_mem_inv fs root res hres rec hrec
  obtain ⟨w, ht, children, _, _, hrec'⟩ :=
    get_image_detection_inv fs root sd id "png" rec hgid
  subst hrec'
  have hkeep : keepDetection det = true := (List.mem_filter.mp hdet).2
  have hmem := (List.mem_filter.mp hdet).1
  obtain ⟨box, _, hbox⟩ := List.mem_map.mp hmem
  obtain ⟨hlr, htb⟩ :
      det.left < det.right ∧ det.top < det.bottom := of_decide_eq_true hkeep
  have hb := clampDetection_bounds w ht box
  rw [hbox] at hb
  exact ⟨hb.1, hlr, hb.2.1, hb.2.2.1, htb, hb.2.2.2⟩

/-- C9 (amended) witness: the surviving fractional detection of `demo9FS`
satisfies the strict bounds. -/
theorem ingest_detections_within_bounds_witness :
    ingest demo9FS "r" = some demo9Res ∧
    (0 ≤ demo9Det.left ∧ demo9Det.left < demo9Det.right ∧
     demo9Det.right < ((demo9Rec "train" "a").image.width : Rat) ∧
     0 ≤ demo9Det.top ∧ demo9Det.top < demo9Det.bottom ∧
     demo9Det.bottom < ((demo9Rec "train" "a").image.height : Rat)) :=
  ⟨by decide,
   ingest_detections_within_bounds demo9FS "r" demo9Res (by decide)
     (demo9Rec "train" "a") (by decide) demo9Det (by decide)⟩

/-- C10: a split index file that is empty or whitespace-only yields the
one-element identifier list `[""]` (not an empty list), so `ingest` goes on
to attempt an image whose id is the empty string: when it succeeds at all,
its first record's id is `""`. -/
theorem empty_index_gives_empty_id (fs : FS) (root : String) (c : String)
    (l : List (String × List String))
    (h1 : fs.readFile (get_index_path root "train") = some c)
    (h2 : pyStrip c = "")
    (h3 : get_image_ids fs root = some l) :
    l.head? = some ("train", [""]) ∧
    (∀ res, ingest fs root = some res →
      (res.head?.map fun r => r.image.id) = some "") ∧
    parseIndexContent c = [""] := by
  have hparse : parseIndexContent c = [""] := by
    unfold parseIndexContent
    rw [h2]
    decide
  have h3' : (match fs.readFile (get_index_path root "train") with
      | none => none
      | some content =>
        (get_image_ids_loop fs root ["valid", "test"]).map
          fun ret => ("train", parseIndexContent content) :: ret) = some l := h3
  rw [h1] at h3'
  obtain ⟨ret, hret, hl⟩ := Option.map_eq_some'.mp h3'
  refine ⟨by rw [← hl]; simp [hparse], ?_, hparse⟩
  intro res hres
  obtain ⟨l', hl', hloop⟩ := ingest_inv fs root res hres
  rw [h3] at hl'
  obtain rfl := Option.some_inj.mp hl'
  have hshape := (ingestLoop_shape fs root "png" l res hloop).1
  rw [← hl, hparse] at hshape
  cases res with
  | nil => simp at hshape
  | cons r rs =>
    simp only [List.map_cons, List.flatten_cons, List.cons_append,
      List.singleton_append] at hshape
    rw [List.cons_eq_cons] at hshape
    simp [hshape.1]

/-- C10 witness: on `demo10FS`, whose `train.txt` holds only whitespace,
the train split's identifier list is `[""]` and the first ingested record
has the empty id. -/
theorem empty_index_gives_empty_id_witness :
    demo10Ids.head? = some ("train", [""]) ∧
    (demo10Res.head?.map fun r => r.image.id) = some "" :=
  ⟨(empty_index_gives_empty_id demo10FS "r" " \n " demo10Ids (by decide)
      (by decide) (by decide)).1,
   (empty_index_gives_empty_id demo10FS "r" " \n " demo10Ids (by decide)
      (by decide) (by decide)).2.1 demo10Res (by decide)⟩

end TsinghuaDaimler
